import Mathlib

/-!
Verification of the huygens_simulator repository.

The repository computes the time-evolving scalar field produced by the
superposition of point-source wavelets over a 2D sampling grid.  We give a
shallow embedding of the two source variants (src/huygens.py and
src/huygens_simulator/huygens.py) over the reals: numpy 2D arrays become
lists of rows of reals, elementwise numpy operations become zipWith/map,
numpy assertion failures and raised errors become Option.none.
-/

/-- A 2D numeric array: a list of rows of real values, modelling a numpy 2D
array.  A rectangular numpy array of shape (r, c) corresponds to a list of r
rows, each of length c. -/
abbrev Mesh : Type := List (List ℝ)

/-- Shape of a 2D array, as the list of its row lengths.  Two rectangular
arrays have equal numpy shapes exactly when these lists are equal. -/
def shape (m : Mesh) : List Nat := m.map List.length

/-- Elementwise unary operation on a 2D array (numpy scalar broadcasting). -/
def ewise1 (f : ℝ → ℝ) (m : Mesh) : Mesh := m.map (List.map f)

/-- Elementwise binary operation on two 2D arrays of equal shape (numpy
elementwise arithmetic). -/
def ewise2 (f : ℝ → ℝ → ℝ) (a b : Mesh) : Mesh :=
  List.zipWith (List.zipWith f) a b

/-- Entry access m[i][j], as an Option. -/
def get2 (m : Mesh) (i j : Nat) : Option ℝ :=
  m[i]?.bind (fun row => row[j]?)

/-- Model of np.zeros for a 2D shape. -/
def zerosOfShape (s : List Nat) : Mesh := s.map (fun n => List.replicate n 0)

/-- Model of np.meshgrid(x, y) with the default xy indexing: x_mesh repeats
the row x once per entry of y, and y_mesh holds one constant row per entry
of y. -/
def meshgrid (x y : List ℝ) : Mesh × Mesh :=
  (List.replicate y.length x, y.map (fun yi => List.replicate x.length yi))

/-- Wavelet from both source variants: angular frequency, wave vector,
position (x0, y0), amplitude (source default 1.0) and phase (source
default 0.0). -/
structure Wavelet where
  ang_frequency : ℝ
  wave_vector : ℝ
  position : ℝ × ℝ
  amplitude : ℝ
  phase : ℝ

/-- Wavelet.field from src/huygens_simulator/huygens.py: displacement
coordinates relative to the wavelet location, radial distance
(dx^2 + dy^2)^0.5, then the cosine field law
amplitude * cos(wave_vector * r - ang_frequency * time + phase),
all elementwise. -/
noncomputable def Wavelet.field (w : Wavelet) (time : ℝ) (x_mesh y_mesh : Mesh) : Mesh :=
  let x_displacement := ewise1 (fun v => v - w.position.1) x_mesh
  let y_displacement := ewise1 (fun v => v - w.position.2) y_mesh
  let displacement :=
    ewise2 (fun dx dy => Real.sqrt (dx ^ 2 + dy ^ 2)) x_displacement y_displacement
  ewise1 (fun r =>
      w.amplitude * Real.cos (w.wave_vector * r - w.ang_frequency * time + w.phase))
    displacement

/-- Wavelet.field from the earlier variant src/huygens.py: the same
displacement computation, then the complex-exponential law
amplitude * exp(1j * (wave_vector * r - ang_frequency * time + phase))
followed by taking the real part. -/
noncomputable def Wavelet.fieldExp (w : Wavelet) (time : ℝ) (x_mesh y_mesh : Mesh) : Mesh :=
  let x_displacement := ewise1 (fun v => v - w.position.1) x_mesh
  let y_displacement := ewise1 (fun v => v - w.position.2) y_mesh
  let displacement :=
    ewise2 (fun dx dy => Real.sqrt (dx ^ 2 + dy ^ 2)) x_displacement y_displacement
  ewise1 (fun r =>
      ((w.amplitude : ℂ) * Complex.exp (Complex.I *
        ((w.wave_vector * r - w.ang_frequency * time + w.phase : ℝ) : ℂ))).re)
    displacement

/-- The closed-form per-sample field value of a Wavelet:
A * cos(k * r - omega * t + phi) with r the distance from (x, y) to the
wavelet position. -/
noncomputable def pointField (w : Wavelet) (time x y : ℝ) : ℝ :=
  w.amplitude * Real.cos (w.wave_vector *
    Real.sqrt ((x - w.position.1) ^ 2 + (y - w.position.2) ^ 2) -
    w.ang_frequency * time + w.phase)

/-- Simulator from src/huygens_simulator/huygens.py: the wavelet list, the
1D coordinate arrays, the derived coordinate meshes and the mesh shape. -/
structure Simulator where
  wavelets : List Wavelet
  x : List ℝ
  y : List ℝ
  x_mesh : Mesh
  y_mesh : Mesh
  mesh_shape : List Nat

/-- Simulator.__init__ from src/huygens_simulator/huygens.py: generate the
coordinate meshes with np.meshgrid(x, y), then assert that the two meshes
have the same shape (an assertion failure is modelled as none). -/
def Simulator.init (wavelets : List Wavelet) (x y : List ℝ) : Option Simulator :=
  let x_mesh := (meshgrid x y).1
  let y_mesh := (meshgrid x y).2
  if shape x_mesh = shape y_mesh then
    some ⟨wavelets, x, y, x_mesh, y_mesh, shape x_mesh⟩
  else
    none

/-- Simulator from the earlier variant src/huygens.py, whose constructor
receives the two coordinate meshes directly. -/
structure SimulatorMesh where
  wavelets : List Wavelet
  x_mesh : Mesh
  y_mesh : Mesh
  mesh_shape : List Nat

/-- Simulator.__init__ from src/huygens.py: assert that the two given meshes
have the same shape (an assertion failure is modelled as none). -/
def SimulatorMesh.init (wavelets : List Wavelet) (x_mesh y_mesh : Mesh) :
    Option SimulatorMesh :=
  if shape x_mesh = shape y_mesh then
    some ⟨wavelets, x_mesh, y_mesh, shape x_mesh⟩
  else
    none

/-- Simulator.frame from src/huygens_simulator/huygens.py: start from
np.zeros(mesh_shape) and add the field of each wavelet in list order. -/
noncomputable def Simulator.frame (s : Simulator) (time : ℝ) : Mesh :=
  s.wavelets.foldl
    (fun field w => ewise2 (fun a b => a + b) field (w.field time s.x_mesh s.y_mesh))
    (zerosOfShape s.mesh_shape)

/-- Model of np.arange(start, stop, step) over the reals: the number of
points is ceil((stop - start) / step) clamped to 0, and point i is
start + i * step.  A zero step raises ZeroDivisionError in numpy, modelled
as none. -/
noncomputable def arange (start stop step : ℝ) : Option (List ℝ) :=
  if step = 0 then none
  else
    some ((List.range (Int.ceil ((stop - start) / step)).toNat).map
      (fun i : Nat => start + (i : ℝ) * step))

/-- Simulator.simulate from src/huygens_simulator/huygens.py: build the time
points with np.arange, allocate an uninitialized result array of length
t_dim (np.empty, modelled with empty-row placeholders), then write
frame(time) at index i for each enumerated time point. -/
noncomputable def Simulator.simulate (s : Simulator) (start stop time_step : ℝ) :
    Option (List Mesh) :=
  (arange start stop time_step).map (fun time_points =>
    let t_dim := time_points.length
    let result : List Mesh := List.replicate t_dim []
    time_points.enum.foldl (fun result p => result.set p.1 (s.frame p.2)) result)

/-! Helper lemmas about shapes and entries of elementwise operations. -/

lemma shape_ewise1 (f : ℝ → ℝ) (m : Mesh) : shape (ewise1 f m) = shape m := by
  simp [shape, ewise1, List.map_map, Function.comp]

lemma shape_ewise2 (f : ℝ → ℝ → ℝ) :
    ∀ a b : Mesh, shape a = shape b → shape (ewise2 f a b) = shape a := by
  intro a
  induction a with
  | nil => intro b _; simp [ewise2]
  | cons ra a ih =>
    intro b h
    cases b with
    | nil => simp [shape] at h
    | cons rb b =>
      simp only [shape, List.map_cons, List.cons.injEq] at h
      simp only [ewise2, List.zipWith_cons_cons, shape, List.map_cons,
        List.length_zipWith, h.1, min_self, List.cons.injEq, true_and]
      exact ih b h.2

lemma shape_zerosOfShape (s : List Nat) : shape (zerosOfShape s) = s := by
  simp [shape, zerosOfShape, List.map_map, Function.comp_def, List.length_replicate]

lemma get2_ewise1 (f : ℝ → ℝ) (m : Mesh) (i j : Nat) (x : ℝ)
    (h : get2 m i j = some x) : get2 (ewise1 f m) i j = some (f x) := by
  simp only [get2, Option.bind_eq_some] at h
  obtain ⟨row, hrow, hx⟩ := h
  simp [get2, ewise1, List.getElem?_map, hrow, hx]

lemma get2_ewise2 (f : ℝ → ℝ → ℝ) (a b : Mesh) (i j : Nat) (x y : ℝ)
    (ha : get2 a i j = some x) (hb : get2 b i j = some y) :
    get2 (ewise2 f a b) i j = some (f x y) := by
  simp only [get2, Option.bind_eq_some] at ha hb
  obtain ⟨ra, hra, hx⟩ := ha
  obtain ⟨rb, hrb, hy⟩ := hb
  simp [get2, ewise2, List.getElem?_zipWith, hra, hrb, hx, hy]

lemma zipWith_add_zero_replicate :
    ∀ r : List ℝ, List.zipWith (fun a b => a + b) (List.replicate r.length 0) r = r := by
  intro r
  induction r with
  | nil => simp
  | cons v r ih => simp [List.replicate_succ, ih]

lemma ewise2_add_zeros :
    ∀ m : Mesh, ewise2 (fun a b => a + b) (zerosOfShape (shape m)) m = m := by
  intro m
  induction m with
  | nil => simp [ewise2, zerosOfShape]
  | cons r m ih =>
    simp only [shape, List.map_cons, zerosOfShape, ewise2, List.zipWith_cons_cons]
    rw [zipWith_add_zero_replicate r]
    simp only [List.cons.injEq, true_and]
    exact ih

lemma get2_zerosOfShape (m : Mesh) (i j : Nat) (x : ℝ)
    (h : get2 m i j = some x) : get2 (zerosOfShape (shape m)) i j = some 0 := by
  simp only [get2, Option.bind_eq_some] at h
  obtain ⟨row, hrow, hx⟩ := h
  have hj : j < row.length := by
    by_contra hj
    rw [List.getElem?_eq_none (le_of_not_lt hj)] at hx
    exact Option.noConfusion hx
  simp [get2, zerosOfShape, shape, List.map_map, List.getElem?_map,
    Function.comp, hrow, List.getElem?_replicate, hj]

lemma get2_field (w : Wavelet) (t : ℝ) (xm ym : Mesh) (i j : Nat) (x y : ℝ)
    (hx : get2 xm i j = some x) (hy : get2 ym i j = some y) :
    get2 (w.field t xm ym) i j = some (pointField w t x y) := by
  unfold Wavelet.field pointField
  exact get2_ewise1 _ _ i j _
    (get2_ewise2 _ _ _ i j _ _ (get2_ewise1 _ _ i j _ hx) (get2_ewise1 _ _ i j _ hy))

lemma shape_field (w : Wavelet) (t : ℝ) (xm ym : Mesh)
    (h : shape xm = shape ym) : shape (w.field t xm ym) = shape xm := by
  unfold Wavelet.field
  rw [shape_ewise1, shape_ewise2, shape_ewise1]
  rw [shape_ewise1, shape_ewise1]
  exact h

lemma meshgrid_shape_fst (x y : List ℝ) :
    shape (meshgrid x y).1 = List.replicate y.length x.length := by
  simp [meshgrid, shape, List.map_replicate]

lemma meshgrid_shape_snd (x y : List ℝ) :
    shape (meshgrid x y).2 = List.replicate y.length x.length := by
  induction y with
  | nil => rfl
  | cons yi y ih =>
    simp only [meshgrid, shape, List.map_cons, List.length_cons, List.map_map] at ih ⊢
    simp [List.length_replicate, List.replicate_succ]
    simpa [shape, meshgrid, List.map_map] using ih

lemma init_eq_some (wavelets : List Wavelet) (x y : List ℝ) :
    Simulator.init wavelets x y =
      some ⟨wavelets, x, y, (meshgrid x y).1, (meshgrid x y).2,
        shape (meshgrid x y).1⟩ := by
  have h : shape (meshgrid x y).1 = shape (meshgrid x y).2 := by
    rw [meshgrid_shape_fst, meshgrid_shape_snd]
  simp [Simulator.init, h]

/-- C1: for every WaveletSource with parameters (omega, k, (x0, y0), A, phi),
every time t and every pair of equal-shaped coordinate arrays, evaluate_field
returns, elementwise, A * cos(k * r - omega * t + phi) with
r = sqrt((x - x0)^2 + (y - y0)^2), and the output has the same shape as the
inputs. -/
theorem C1_field_closed_form (w : Wavelet) (t : ℝ) (xs ys : Mesh)
    (hsh : shape xs = shape ys) :
    shape (w.field t xs ys) = shape xs ∧
    ∀ i j x y, get2 xs i j = some x → get2 ys i j = some y →
      get2 (w.field t xs ys) i j =
        some (w.amplitude * Real.cos (w.wave_vector *
          Real.sqrt ((x - w.position.1) ^ 2 + (y - w.position.2) ^ 2) -
          w.ang_frequency * t + w.phase)) := by
  refine ⟨shape_field w t xs ys hsh, ?_⟩
  intro i j x y hx hy
  exact get2_field w t xs ys i j x y hx hy

/-- C1 witness: the theorem applied to a concrete wavelet and a concrete
1-by-1 grid. -/
theorem C1_field_closed_form_witness :
    shape (Wavelet.field ⟨1, 1, (0, 0), 1, 0⟩ 0 [[0]] [[0]]) = shape [[0]] ∧
    ∀ i j x y, get2 [[0]] i j = some x → get2 [[0]] i j = some y →
      get2 (Wavelet.field ⟨1, 1, (0, 0), 1, 0⟩ 0 [[0]] [[0]]) i j =
        some ((1 : ℝ) * Real.cos (1 * Real.sqrt ((x - 0) ^ 2 + (y - 0) ^ 2) - 1 * 0 + 0)) :=
  C1_field_closed_form ⟨1, 1, (0, 0), 1, 0⟩ 0 [[0]] [[0]] rfl

/-- C5: the complex-exponential field law of src/huygens.py (real part of
A * exp(j * (k * r - omega * t + phi))) and the direct cosine field law of
src/huygens_simulator/huygens.py return equal field values for all
parameters, times and coordinate arrays. -/
theorem C5_exp_cos_equivalence (w : Wavelet) (t : ℝ) (xs ys : Mesh) :
    w.fieldExp t xs ys = w.field t xs ys := by
  simp only [Wavelet.fieldExp, Wavelet.field]
  congr 1
  funext r
  rw [mul_comm Complex.I, Complex.re_ofReal_mul, Complex.exp_ofReal_mul_I_re]

/-- C10: for a WaveletSource whose angular frequency is omega = 2 pi / T for
some period T > 0, the field at time t + T equals the field at time t at
every sample point. -/
theorem C10_time_periodicity (w : Wavelet) (T : ℝ) (hT : 0 < T)
    (hw : w.ang_frequency = 2 * Real.pi / T) (t : ℝ) (xs ys : Mesh) :
    w.field (t + T) xs ys = w.field t xs ys := by
  have hTne : T ≠ 0 := ne_of_gt hT
  have hwT : w.ang_frequency * T = 2 * Real.pi := by
    rw [hw, div_mul_cancel₀ _ hTne]
  simp only [Wavelet.field]
  congr 1
  funext r
  have harg : w.wave_vector * r - w.ang_frequency * (t + T) + w.phase =
      w.wave_vector * r - w.ang_frequency * t + w.phase - 2 * Real.pi := by
    rw [← hwT]; ring
  rw [harg, Real.cos_sub_two_pi]

/-! Helper lemmas about frame accumulation. -/

lemma frame_fold_shape (xm ym : Mesh) (t : ℝ) (h : shape xm = shape ym) :
    ∀ (ws : List Wavelet) (acc : Mesh), shape acc = shape xm →
      shape (ws.foldl
        (fun field w => ewise2 (fun a b => a + b) field (w.field t xm ym)) acc) =
        shape xm := by
  intro ws
  induction ws with
  | nil => intro acc hacc; exact hacc
  | cons w ws ih =>
    intro acc hacc
    simp only [List.foldl_cons]
    exact ih _ (by rw [shape_ewise2 _ _ _ (by rw [hacc, shape_field w t xm ym h]), hacc])

lemma frame_fold_entry (xm ym : Mesh) (t : ℝ) (i j : Nat) (xv yv : ℝ)
    (hx : get2 xm i j = some xv) (hy : get2 ym i j = some yv) :
    ∀ (ws : List Wavelet) (acc : Mesh) (a : ℝ), get2 acc i j = some a →
      get2 (ws.foldl
        (fun field w => ewise2 (fun c d => c + d) field (w.field t xm ym)) acc) i j =
        some (ws.foldl (fun c w => c + pointField w t xv yv) a) := by
  intro ws
  induction ws with
  | nil => intro acc a hacc; simpa using hacc
  | cons w ws ih =>
    intro acc a hacc
    simp only [List.foldl_cons]
    exact ih _ _ (get2_ewise2 _ _ _ i j _ _ hacc (get2_field w t xm ym i j xv yv hx hy))

/-- C2: for every constructed sampler and every time, frame(t) is the
all-zero array of the grid shape with each source's field added elementwise
in list order; it has exactly the grid's shape.  Entrywise, the value at
(i, j) is the left fold of additions of the per-source closed-form values
starting from 0. -/
theorem C2_frame_accumulation (ws : List Wavelet) (x y : List ℝ) (s : Simulator)
    (hs : Simulator.init ws x y = some s) (t : ℝ) :
    shape (s.frame t) = s.mesh_shape ∧
    ∀ i j xv yv, get2 s.x_mesh i j = some xv → get2 s.y_mesh i j = some yv →
      get2 (s.frame t) i j =
        some (s.wavelets.foldl (fun acc w => acc + pointField w t xv yv) 0) := by
  rw [init_eq_some ws x y, Option.some.injEq] at hs
  subst hs
  have hmesh : shape (meshgrid x y).1 = shape (meshgrid x y).2 := by
    rw [meshgrid_shape_fst, meshgrid_shape_snd]
  constructor
  · show shape (Simulator.frame _ t) = shape (meshgrid x y).1
    unfold Simulator.frame
    exact frame_fold_shape _ _ t hmesh ws _ (shape_zerosOfShape _)
  · intro i j xv yv hx hy
    unfold Simulator.frame
    exact frame_fold_entry _ _ t i j xv yv hx hy ws _ 0
      (get2_zerosOfShape _ i j xv hx)

/-- C7: a sampler constructed with an empty wavelet collection returns, for
every time, the all-zero array of the grid's shape; the empty collection is
not an error (construction succeeds). -/
theorem C7_empty_sources (x y : List ℝ) (s : Simulator)
    (hs : Simulator.init [] x y = some s) (t : ℝ) :
    s.frame t = zerosOfShape s.mesh_shape ∧
    shape (s.frame t) = s.mesh_shape ∧
    ∀ row ∈ s.frame t, ∀ v ∈ row, v = 0 := by
  rw [init_eq_some [] x y, Option.some.injEq] at hs
  subst hs
  refine ⟨rfl, ?_, ?_⟩
  · show shape (Simulator.frame _ t) = shape (meshgrid x y).1
    unfold Simulator.frame
    simp [shape_zerosOfShape]
  · intro row hrow v hv
    simp only [Simulator.frame, List.foldl_nil, zerosOfShape, List.mem_map] at hrow
    obtain ⟨n, _, hn⟩ := hrow
    rw [← hn] at hv
    exact List.eq_of_mem_replicate hv

/-- C8: for every grid, time and two wavelets S1 and S2, the frame of a
sampler holding [S1, S2] equals the elementwise sum of the frames of the
samplers holding [S1] alone and [S2] alone (exact arithmetic over the
reals). -/
theorem C8_superposition (S1 S2 : Wavelet) (x y : List ℝ)
    (s12 s1 s2 : Simulator) (t : ℝ)
    (h12 : Simulator.init [S1, S2] x y = some s12)
    (h1 : Simulator.init [S1] x y = some s1)
    (h2 : Simulator.init [S2] x y = some s2) :
    s12.frame t = ewise2 (fun a b => a + b) (s1.frame t) (s2.frame t) := by
  rw [init_eq_some _ x y, Option.some.injEq] at h12 h1 h2
  subst h12; subst h1; subst h2
  have hmesh : shape (meshgrid x y).1 = shape (meshgrid x y).2 := by
    rw [meshgrid_shape_fst, meshgrid_shape_snd]
  show List.foldl _ _ [S1, S2] = ewise2 _ (List.foldl _ _ [S1]) (List.foldl _ _ [S2])
  simp only [List.foldl_cons, List.foldl_nil]
  have hzero : ewise2 (fun a b => a + b) (zerosOfShape (shape (meshgrid x y).1))
      (Wavelet.field S2 t (meshgrid x y).1 (meshgrid x y).2) =
      Wavelet.field S2 t (meshgrid x y).1 (meshgrid x y).2 := by
    have hsf : shape (Wavelet.field S2 t (meshgrid x y).1 (meshgrid x y).2) =
        shape (meshgrid x y).1 := shape_field S2 t _ _ hmesh
    calc ewise2 (fun a b => a + b) (zerosOfShape (shape (meshgrid x y).1))
          (Wavelet.field S2 t (meshgrid x y).1 (meshgrid x y).2)
        = ewise2 (fun a b => a + b)
            (zerosOfShape (shape (Wavelet.field S2 t (meshgrid x y).1 (meshgrid x y).2)))
            (Wavelet.field S2 t (meshgrid x y).1 (meshgrid x y).2) := by rw [hsf]
      _ = Wavelet.field S2 t (meshgrid x y).1 (meshgrid x y).2 :=
          ewise2_add_zeros _
  rw [hzero]

/-! Concrete instances used by the witnesses. -/

/-- A concrete wavelet with unit parameters at the origin. -/
def w0 : Wavelet := ⟨1, 1, (0, 0), 1, 0⟩

/-- The sampler built from no wavelets on the 1-by-1 grid at the origin. -/
def sampler0 : Simulator := ⟨[], [0], [0], [[0]], [[0]], [1]⟩

/-- The sampler built from [w0] on the 1-by-1 grid at the origin. -/
def sampler1 : Simulator := ⟨[w0], [0], [0], [[0]], [[0]], [1]⟩

/-- The sampler built from [w0, w0] on the 1-by-1 grid at the origin. -/
def sampler2 : Simulator := ⟨[w0, w0], [0], [0], [[0]], [[0]], [1]⟩

lemma init_sampler0 : Simulator.init [] [0] [0] = some sampler0 := rfl

lemma init_sampler1 : Simulator.init [w0] [0] [0] = some sampler1 := rfl

lemma init_sampler2 : Simulator.init [w0, w0] [0] [0] = some sampler2 := rfl

/-- C2 witness: the theorem applied to the concrete one-wavelet sampler at
time 0. -/
theorem C2_frame_accumulation_witness :
    shape (sampler1.frame 0) = sampler1.mesh_shape ∧
    ∀ i j xv yv, get2 sampler1.x_mesh i j = some xv →
      get2 sampler1.y_mesh i j = some yv →
      get2 (sampler1.frame 0) i j =
        some (sampler1.wavelets.foldl (fun acc w => acc + pointField w 0 xv yv) 0) :=
  C2_frame_accumulation [w0] [0] [0] sampler1 init_sampler1 0

/-- C7 witness: the theorem applied to the concrete zero-wavelet sampler at
time 0. -/
theorem C7_empty_sources_witness :
    sampler0.frame 0 = zerosOfShape sampler0.mesh_shape ∧
    shape (sampler0.frame 0) = sampler0.mesh_shape ∧
    ∀ row ∈ sampler0.frame 0, ∀ v ∈ row, v = 0 :=
  C7_empty_sources [0] [0] sampler0 init_sampler0 0

/-- C8 witness: the theorem applied to the concrete two-wavelet sampler at
time 0. -/
theorem C8_superposition_witness :
    sampler2.frame 0 = ewise2 (fun a b => a + b) (sampler1.frame 0) (sampler1.frame 0) :=
  C8_superposition w0 w0 [0] [0] sampler2 sampler1 sampler1 0
    init_sampler2 init_sampler1 init_sampler1

/-- C6: for 1D coordinate sequences x and y of length at least 1, a
constructed sampler's meshes both have shape (len y, len x), with
x_mesh[i][j] = x[j] and y_mesh[i][j] = y[i] at every valid index pair. -/
theorem C6_meshgrid_shapes (ws : List Wavelet) (x y : List ℝ)
    (_hx : 1 ≤ x.length) (_hy : 1 ≤ y.length) (s : Simulator)
    (hs : Simulator.init ws x y = some s) :
    shape s.x_mesh = List.replicate y.length x.length ∧
    shape s.y_mesh = List.replicate y.length x.length ∧
    (∀ i j, i < y.length → j < x.length → get2 s.x_mesh i j = x[j]?) ∧
    (∀ i j, i < y.length → j < x.length → get2 s.y_mesh i j = y[i]?) := by
  rw [init_eq_some ws x y, Option.some.injEq] at hs
  subst hs
  refine ⟨meshgrid_shape_fst x y, meshgrid_shape_snd x y, ?_, ?_⟩
  · intro i j hi hj
    show get2 (List.replicate y.length x) i j = x[j]?
    simp [get2, List.getElem?_replicate, hi]
  · intro i j hi hj
    show get2 (y.map fun yi => List.replicate x.length yi) i j = y[i]?
    have hyi : y[i]? = some (y.get ⟨i, hi⟩) := List.getElem?_eq_getElem hi
    simp [get2, List.getElem?_map, hyi, List.getElem?_replicate, hj]

/-- C6 witness: the theorem applied to the concrete 1-by-1 grid. -/
theorem C6_meshgrid_shapes_witness :
    shape sampler0.x_mesh = List.replicate [(0 : ℝ)].length [(0 : ℝ)].length ∧
    shape sampler0.y_mesh = List.replicate [(0 : ℝ)].length [(0 : ℝ)].length ∧
    (∀ i j, i < [(0 : ℝ)].length → j < [(0 : ℝ)].length →
      get2 sampler0.x_mesh i j = [(0 : ℝ)][j]?) ∧
    (∀ i j, i < [(0 : ℝ)].length → j < [(0 : ℝ)].length →
      get2 sampler0.y_mesh i j = [(0 : ℝ)][i]?) :=
  C6_meshgrid_shapes [] [0] [0] (by decide) (by decide) sampler0 init_sampler0

/-- C9: constructing the mesh-taking Simulator of src/huygens.py from meshes
of differing shapes fails, while the 1D-coordinate constructor of
src/huygens_simulator/huygens.py always succeeds and establishes that the
two derived meshes have equal shapes. -/
theorem C9_shape_check (ws : List Wavelet) (xm ym : Mesh)
    (hsh : shape xm ≠ shape ym) (x y : List ℝ) :
    SimulatorMesh.init ws xm ym = none ∧
    ∃ s, Simulator.init ws x y = some s ∧ shape s.x_mesh = shape s.y_mesh := by
  constructor
  · simp [SimulatorMesh.init, hsh]
  · refine ⟨_, init_eq_some ws x y, ?_⟩
    show shape (meshgrid x y).1 = shape (meshgrid x y).2
    rw [meshgrid_shape_fst, meshgrid_shape_snd]

/-- C9 witness: the theorem applied to a concrete mismatching mesh pair and
a concrete well-formed 1D grid. -/
theorem C9_shape_check_witness :
    shape ([[0]] : Mesh) ≠ shape ([[0], [0]] : Mesh) ∧
    (SimulatorMesh.init [] [[0]] [[0], [0]] = none ∧
     ∃ s, Simulator.init [] [0] [0] = some s ∧ shape s.x_mesh = shape s.y_mesh) :=
  ⟨by decide, C9_shape_check [] [[0]] [[0], [0]] (by decide) [0] [0]⟩

/-! Helper lemmas about the materializing time loop of simulate. -/

lemma take_set_succ {α : Type} :
    ∀ (l : List α) (k : Nat) (a : α), k < l.length →
      (l.set k a).take (k + 1) = l.take k ++ [a] := by
  intro l
  induction l with
  | nil => intro k a hk; simp at hk
  | cons v l ih =>
    intro k a hk
    cases k with
    | zero => simp
    | succ k =>
      simp only [List.set_cons_succ, List.take_succ_cons, List.cons_append,
        List.cons.injEq, true_and]
      exact ih k a (by simpa using hk)

lemma foldl_set_enumFrom (g : ℝ → Mesh) :
    ∀ (tps : List ℝ) (k : Nat) (acc : List Mesh), acc.length = k + tps.length →
      (tps.enumFrom k).foldl (fun r p => r.set p.1 (g p.2)) acc =
        acc.take k ++ tps.map g := by
  intro tps
  induction tps with
  | nil =>
    intro k acc hlen
    simp only [List.enumFrom_nil, List.foldl_nil, List.map_nil, List.append_nil]
    exact (List.take_of_length_le (le_of_eq (by simpa using hlen))).symm
  | cons t ts ih =>
    intro k acc hlen
    simp only [List.enumFrom_cons, List.foldl_cons]
    have hk : k < acc.length := by simp only [List.length_cons] at hlen; omega
    rw [ih (k + 1) (acc.set k (g t))
      (by simp only [List.length_set, List.length_cons] at hlen ⊢; omega)]
    rw [take_set_succ acc k (g t) hk]
    simp

lemma foldl_set_enum (g : ℝ → Mesh) (tps : List ℝ) :
    tps.enum.foldl (fun r p => r.set p.1 (g p.2))
      (List.replicate tps.length ([] : Mesh)) = tps.map g := by
  have h := foldl_set_enumFrom g tps 0 (List.replicate tps.length []) (by simp)
  simpa [List.enum] using h

lemma simulate_eq_map (s : Simulator) (start stop step : ℝ) (hstep : step ≠ 0) :
    s.simulate start stop step =
      some (((List.range (Int.ceil ((stop - start) / step)).toNat).map
        (fun i : Nat => start + (i : ℝ) * step)).map s.frame) := by
  unfold Simulator.simulate arange
  rw [if_neg hstep]
  simp only [Option.map_some']
  exact congrArg some (foldl_set_enum s.frame _)

lemma simulate_step_zero (s : Simulator) (start stop : ℝ) :
    s.simulate start stop 0 = none := by
  unfold Simulator.simulate arange
  simp

lemma simulate_neg_step (s : Simulator) (start stop step : ℝ)
    (hstep : step < 0) (hle : start ≤ stop) :
    s.simulate start stop step = some [] := by
  have h0 : step ≠ 0 := ne_of_lt hstep
  rw [simulate_eq_map s start stop step h0]
  have hq : (stop - start) / step ≤ 0 :=
    div_nonpos_iff.mpr (Or.inl ⟨sub_nonneg.mpr hle, le_of_lt hstep⟩)
  have hceil : (Int.ceil ((stop - start) / step)).toNat = 0 := by
    rw [Int.toNat_eq_zero]
    exact Int.ceil_le.mpr (by exact_mod_cast hq)
  rw [hceil]
  simp

/-- C3: for step > 0, element i of the 3D array returned by simulate equals
frame(start + i * step), so the materializing mode is observationally
equivalent to calling frame at each time point. -/
theorem C3_materializing_matches_frame (s : Simulator) (start stop step : ℝ)
    (hstep : 0 < step) (L : List Mesh) (hL : s.simulate start stop step = some L)
    (i : Nat) (hi : i < L.length) :
    L[i]? = some (s.frame (start + i * step)) := by
  rw [simulate_eq_map s start stop step (ne_of_gt hstep), Option.some.injEq] at hL
  subst hL
  simp only [List.length_map, List.length_range] at hi
  simp only [List.getElem?_map, List.getElem?_range, hi, if_true, Option.map_some']

/-- C3 witness: the theorem applied to the concrete sampler over the time
range [0, 1) with step 1, whose single frame is frame(0). -/
theorem C3_materializing_matches_frame_witness :
    (0 : ℝ) < 1 ∧
    sampler0.simulate 0 1 1 = some [sampler0.frame 0] ∧
    [sampler0.frame 0][0]? = some (sampler0.frame (0 + ((0 : Nat) : ℝ) * 1)) := by
  have hceil : Int.ceil (((1 : ℝ) - 0) / 1) = 1 := by norm_num
  have hsim : sampler0.simulate 0 1 1 = some [sampler0.frame 0] := by
    rw [simulate_eq_map sampler0 0 1 1 one_ne_zero, hceil]
    simp only [Int.toNat_one, List.range_succ, List.range_zero, List.nil_append,
      List.map_cons, List.map_nil, Nat.cast_zero, zero_mul, add_zero]
  refine ⟨one_pos, hsim, ?_⟩
  exact C3_materializing_matches_frame sampler0 0 1 1 one_pos
    [sampler0.frame 0] hsim 0 (by simp)

/-- C4 (amended): a zero step makes simulate fail immediately (numpy range
generation raises a division-by-zero error) before any frame is computed,
but a negative step does not fail: with start at or before stop, simulate
returns successfully with an empty result. -/
theorem C4_step_validation (s : Simulator) (start stop step : ℝ)
    (hstep : step < 0) (hle : start ≤ stop) :
    s.simulate start stop 0 = none ∧ s.simulate start stop step = some [] :=
  ⟨simulate_step_zero s start stop, simulate_neg_step s start stop step hstep hle⟩

/-- C4 witness: the amended theorem applied to the concrete sampler with
step -1/2 on the range [0, 1). -/
theorem C4_step_validation_witness :
    (-(1 / 2) : ℝ) < 0 ∧ (0 : ℝ) ≤ 1 ∧
    (sampler0.simulate 0 1 0 = none ∧
     sampler0.simulate 0 1 (-(1 / 2)) = some []) :=
  ⟨by norm_num, zero_le_one,
    C4_step_validation sampler0 0 1 (-(1 / 2)) (by norm_num) zero_le_one⟩

/-- C4 counterexample: invoking simulate with the negative step -1/2 does
not fail with an invalid-argument condition: it returns successfully (with
an empty result), contradicting the claim that every non-positive step
fails before any output is produced. -/
theorem C4_counterexample :
    sampler0.simulate 0 1 (-(1 / 2)) = some [] ∧
    sampler0.simulate 0 1 (-(1 / 2)) ≠ none := by
  have h := simulate_neg_step sampler0 0 1 (-(1 / 2)) (by norm_num) (by norm_num)
  exact ⟨h, by rw [h]; exact Option.some_ne_none _⟩

/-- A concrete wavelet with period 1, that is angular frequency 2 pi. -/
noncomputable def wP : Wavelet := ⟨2 * Real.pi, 1, (0, 0), 1, 0⟩

/-- C10 witness: the periodicity theorem applied to the concrete wavelet of
period 1 at time 0 on the 1-by-1 grid. -/
theorem C10_time_periodicity_witness :
    (0 : ℝ) < 1 ∧ wP.ang_frequency = 2 * Real.pi / 1 ∧
    wP.field (0 + 1) [[0]] [[0]] = wP.field 0 [[0]] [[0]] :=
  ⟨one_pos, (div_one (2 * Real.pi)).symm,
    C10_time_periodicity wP 1 one_pos ((div_one (2 * Real.pi)).symm) 0 [[0]] [[0]]⟩
